import Mathlib

/-
Verification of the CI helper script src/entrypoint.py from bbaldino/jitsi-ga-test.

The script is a sequential pipeline: parse a deps block from a PR body into a
dict of component overrides, check the overridden repositories out, and build
the overridden components in a fixed precedence order, substituting the
versions produced by earlier builds into each later component's pom before
invoking maven.

The embedding below models:
  - Python string primitives (str.split, str.strip, the `in` substring test)
    used by parse_deps and by the deps extraction in main;
  - parse_deps together with the log messages it prints;
  - build_components / build_component / update_maven_deps, with the external
    world (maven exit codes, versions read back from poms) supplied as oracles
    and the externally visible effects (substitution commands applied, builds
    attempted, process exit) returned as data;
  - retrieve_pr_body / load_pr / get_pr_comments, with the HTTP layer supplied
    as an oracle and the issued requests returned as data.

Calls to sys.exit(1) (the fail helper and the unhandled-action branch) are
modelled as Except.error carrying the exit status; an uncaught Python
exception in main is modelled by a distinct error type.
-/

/-- Python str.split(sep) on character lists.  The first argument is fuel for
structural recursion; fuel = xs.length + 1 always suffices for a nonempty
separator, since every recursive call consumes at least one character of xs.
At each position, a separator occurrence is recognised greedily from the left
and consumed, matching CPython's semantics for str.split with an explicit
separator (no stripping, empty fields preserved). -/
def pySplitF (sep : List Char) : Nat → List Char → List (List Char)
  | 0, xs => [xs]
  | _ + 1, [] => [[]]
  | fuel + 1, x :: rest =>
    if sep.isPrefixOf (x :: rest) then
      [] :: pySplitF sep fuel ((x :: rest).drop sep.length)
    else
      match pySplitF sep fuel rest with
      | [] => [[x]]
      | p :: ps => (x :: p) :: ps

/-- Python str.split(sep) for strings. -/
def pySplitStr (sep s : String) : List String :=
  (pySplitF sep.toList (s.toList.length + 1) s.toList).map String.mk

/-- Python str.strip(): remove leading and trailing whitespace characters. -/
def pyStrip (s : String) : String :=
  String.mk (((s.toList.dropWhile Char.isWhitespace).reverse.dropWhile
    Char.isWhitespace).reverse)

/-- Python substring membership (the `in` operator on str), executable. -/
def hasSubstr (sep : List Char) : List Char → Bool
  | [] => sep.isEmpty
  | x :: rest => sep.isPrefixOf (x :: rest) || hasSubstr sep rest

/-- Log messages printed through the info helper (entrypoint.py lines 15-16).
The textual formatting of each message is abstracted into a constructor that
keeps the data interpolated into the message. -/
inductive LogMsg where
  | willUse (component repo branch : String)
  | invalidLine (line : String)
  | retrievingPr
  | unhandledAction (action : String)
deriving DecidableEq

/-- The overridden_components mapping from component name to (repo, branch),
modelling the Python dict built by parse_deps. -/
abbrev Dict := List (String × (String × String))

/-- Python dict assignment d[k] = v: update an existing key in place, keeping
its position, or append a fresh key at the end (CPython insertion order). -/
def dinsert {α : Type} (k : String) (v : α) : List (String × α) → List (String × α)
  | [] => [(k, v)]
  | e :: rest => if e.1 == k then (k, v) :: rest else e :: dinsert k v rest

/-- Python dict lookup d[k] (keys are unique in a dict built by dinsert, so
first match suffices). -/
def dlookup {α : Type} (k : String) : List (String × α) → Option α
  | [] => none
  | e :: rest => if e.1 == k then some e.2 else dlookup k rest

/-- Python `k in d` membership test on a dict. -/
def hasKey {α : Type} (d : List (String × α)) (k : String) : Bool :=
  d.any fun e => e.1 == k

/-- The tuple unpacking (_, component, repo, branch) = line.split(" ") inside
parse_deps (entrypoint.py line 136).  The none result models the ValueError
raised when the line does not split into exactly four space-separated tokens;
note the first token is bound to _ and never inspected. -/
def parseLine (line : String) : Option (String × (String × String)) :=
  match pySplitStr " " line with
  | [_, component, repo, branch] => some (component, (repo, branch))
  | _ => none

/-- The loop body of parse_deps (entrypoint.py lines 134-140): a well-formed
line logs the "Will use branch ..." message and assigns into the dict, a
malformed line logs the "invalid line" message and is skipped. -/
def pdStep (acc : Dict × List LogMsg) (line : String) : Dict × List LogMsg :=
  match parseLine line with
  | some (component, repo, branch) =>
    (dinsert component (repo, branch) acc.1, acc.2 ++ [LogMsg.willUse component repo branch])
  | none => (acc.1, acc.2 ++ [LogMsg.invalidLine line])

/-- parse_deps (entrypoint.py lines 131-141): split the deps block into lines,
strip each line, and run the loop body over the lines in order, starting from
the empty dict.  The returned pair is the dict together with the log messages
printed, in order. -/
def parse_deps (deps : String) : Dict × List LogMsg :=
  ((pySplitStr "\n" deps).map pyStrip).foldl pdStep ([], [])

/-- The stripped lines of a deps block, exactly as parse_deps iterates them. -/
def strippedLines (deps : String) : List String :=
  (pySplitStr "\n" deps).map pyStrip

/-- The (component, (repo, branch)) entries contributed by the well-formed
lines of a deps block, in line order. -/
def wellFormedEntries (deps : String) : List (String × (String × String)) :=
  (strippedLines deps).filterMap parseLine

/-- The dict obtained by inserting a list of entries in order, starting from
the empty dict. -/
def dictOfEntries (es : List (String × (String × String))) : Dict :=
  es.foldl (fun acc e => dinsert e.1 e.2 acc) []

/-- The single log message a given stripped line produces in parse_deps. -/
def lineLog (line : String) : LogMsg :=
  match parseLine line with
  | some (component, repo, branch) => LogMsg.willUse component repo branch
  | none => LogMsg.invalidLine line

/-- One xmlstarlet version-substitution command issued by update_maven_deps:
set the version of dependency artifactId to version in pomDir/pom.xml. -/
structure SubstCmd where
  artifactId : String
  version : String
  pomDir : String
deriving DecidableEq

/-- update_maven_deps (entrypoint.py lines 30-43): one substitution command per
entry of overridden_versions, in dict order, all editing the pom of
component_dir. -/
def update_maven_deps (overridden_versions : List (String × String))
    (component_dir : String) : List SubstCmd :=
  overridden_versions.map fun e =>
    { artifactId := e.1, version := e.2, pomDir := component_dir }

/-- One build performed during a run: which component was built and the
substitution commands update_maven_deps applied to its pom before mvn ran. -/
structure BuildEvent where
  component : String
  substitutions : List SubstCmd
deriving DecidableEq

/-- build_component (entrypoint.py lines 52-62): first update_maven_deps runs
(the first projection is the list of substitution commands it applied), then
mvn runs; a non-zero exit code calls fail, that is sys.exit(1), modelled as
Except.error 1, otherwise get_component_version reads the produced version back
from the pom, modelled by the oracle ver. -/
def build_component (mvn : String → Int) (ver : String → String)
    (component_dir : String) (overridden_versions : List (String × String)) :
    List SubstCmd × Except Nat String :=
  (update_maven_deps overridden_versions component_dir,
    if mvn component_dir ≠ 0 then Except.error 1 else Except.ok (ver component_dir))

/-- One of the five guarded blocks of build_components: the component name
tested against the overridden dict, and whether the produced version is stored
into overridden_versions afterwards (record is false only for
jitsi-videobridge, entrypoint.py lines 86-88, whose version is not stored). -/
structure Block where
  name : String
  record : Bool
deriving DecidableEq

/-- The running state inside build_components: the overridden_versions dict and
the builds performed so far. -/
structure BState where
  versions : List (String × String)
  events : List BuildEvent
deriving DecidableEq

/-- One if-block of build_components (entrypoint.py lines 70-88): if the
component is overridden, build it against the current overridden_versions; a
failing build aborts the whole run carrying exit status 1 and the builds
attempted so far (the failing one included). -/
def buildBlock (mvn : String → Int) (ver : String → String) (ov : Dict)
    (blk : Block) (st : BState) : Except (Nat × List BuildEvent) BState :=
  if hasKey ov blk.name then
    let dir := "./" ++ blk.name
    let bc := build_component mvn ver dir st.versions
    let ev : BuildEvent := { component := blk.name, substitutions := bc.1 }
    match bc.2 with
    | Except.error code => Except.error (code, st.events ++ [ev])
    | Except.ok version =>
      Except.ok { versions := if blk.record then dinsert blk.name version st.versions
                              else st.versions,
                  events := st.events ++ [ev] }
  else Except.ok st

/-- The five blocks of build_components, in source order (entrypoint.py lines
70-88). -/
def blockList : List Block :=
  [{ name := "jitsi-utils", record := true }, { name := "jicoco", record := true },
   { name := "rtp", record := true }, { name := "jitsi-media-transform", record := true },
   { name := "jitsi-videobridge", record := false }]

/-- Sequential execution of a list of build_components blocks, propagating the
first failure. -/
def runBlocks (mvn : String → Int) (ver : String → String) (ov : Dict) :
    List Block → BState → Except (Nat × List BuildEvent) BState
  | [], st => Except.ok st
  | b :: bs, st =>
    match buildBlock mvn ver ov b st with
    | Except.error e => Except.error e
    | Except.ok st1 => runBlocks mvn ver ov bs st1

/-- build_components (entrypoint.py lines 67-90): run the five blocks in order
starting from an empty overridden_versions dict.  The result is the list of
builds performed, or the exit status and the builds attempted when a build
failed.  The os.mkdir and per-component log files are I/O details not
modelled. -/
def build_components (mvn : String → Int) (ver : String → String) (ov : Dict) :
    Except (Nat × List BuildEvent) (List BuildEvent) :=
  match runBlocks mvn ver ov blockList { versions := [], events := [] } with
  | Except.error e => Except.error e
  | Except.ok st => Except.ok st.events

/-- The fixed precedence order in which build_components considers components
(the names of the five blocks, in source order). -/
def componentBuildOrder : List String :=
  ["jitsi-utils", "jicoco", "rtp", "jitsi-media-transform", "jitsi-videobridge"]

/-- The JSON of a pull request, reduced to the only field main reads. -/
structure PrJson where
  body : String

/-- One HTTP GET issued by the script, with the Authorization header value it
carried (built from GH_REQUEST_HEADERS, entrypoint.py lines 152-155). -/
structure HttpRequest where
  url : String
  authorization : String
deriving DecidableEq

/-- A triggering GitHub event, reduced to the fields retrieve_pr_body reads:
the action and the PR self link event["pull_request"]["_links"]["self"]["href"]. -/
structure GhEvent where
  action : String
  prUrl : String

/-- The event actions retrieve_pr_body handles (entrypoint.py line 118). -/
def handledActions : List String := ["synchronize", "opened", "edited"]

/-- load_pr (entrypoint.py lines 92-103): one authenticated GET of the PR URL;
the response JSON is supplied by the oracle fetch. -/
def load_pr (token : String) (fetch : String → PrJson) (url : String) :
    List HttpRequest × PrJson :=
  ([{ url := url, authorization := "Bearer " ++ token }], fetch url)

/-- get_pr_comments (entrypoint.py lines 105-115): one authenticated GET of a
comments URL.  The function is defined in the source but never called from
the main program. -/
def get_pr_comments (token : String) (fetch : String → List String) (url : String) :
    List HttpRequest × List String :=
  ([{ url := url, authorization := "Bearer " ++ token }], fetch url)

/-- The outcome of retrieve_pr_body: the log messages printed, the HTTP
requests issued, and either the PR body or the process exit status. -/
structure RetrieveOutcome where
  logs : List LogMsg
  requests : List HttpRequest
  result : Except Nat String

/-- retrieve_pr_body (entrypoint.py lines 117-122): a synchronize, opened or
edited action fetches the PR JSON and returns its body; any other action logs
the unhandled action and exits with status 1, issuing no HTTP request. -/
def retrieve_pr_body (token : String) (fetch : String → PrJson) (event : GhEvent) :
    RetrieveOutcome :=
  if event.action ∈ handledActions then
    let lp := load_pr token fetch event.prUrl
    { logs := [LogMsg.retrievingPr], requests := lp.1, result := Except.ok lp.2.body }
  else
    { logs := [LogMsg.unhandledAction event.action], requests := [],
      result := Except.error 1 }

/-- An uncaught Python exception in the main program. -/
inductive PyExc where
  | indexError
deriving DecidableEq

/-- The statement deps = pr_body.split("deps:")[1] of the main program
(entrypoint.py line 159).  A split result with fewer than two elements makes
the index expression raise an uncaught IndexError. -/
def mainExtractDeps (pr_body : String) : Except PyExc String :=
  match (pySplitStr "deps:" pr_body).get? 1 with
  | some deps => Except.ok deps
  | none => Except.error PyExc.indexError

/-- Substitution discipline of a run: before the i-th build of the run, the
substitution commands applied to its pom are exactly one per previously built
component, in build order, each setting that component's artifact to the
version read back from that component's own pom. -/
def GoodEvents (ver : String → String) (evs : List BuildEvent) : Prop :=
  ∀ i e, evs.get? i = some e →
    e.substitutions =
      update_maven_deps ((evs.take i).map fun x => (x.component, ver ("./" ++ x.component)))
        ("./" ++ e.component)

lemma pySplitF_ne_nil (sep : List Char) (fuel : Nat) (xs : List Char) :
    pySplitF sep fuel xs ≠ [] := by
  match fuel, xs with
  | 0, xs => simp [pySplitF]
  | _ + 1, [] => simp [pySplitF]
  | fuel + 1, x :: rest =>
    simp only [pySplitF]
    split
    · simp
    · split <;> simp

lemma pySplitF_single_or_hasSubstr (sep : List Char) :
    ∀ (fuel : Nat) (xs : List Char),
      (pySplitF sep fuel xs).length = 1 ∨ hasSubstr sep xs = true := by
  intro fuel
  induction fuel with
  | zero => intro xs; left; simp [pySplitF]
  | succ n ih =>
    intro xs
    match xs with
    | [] => left; simp [pySplitF]
    | x :: rest =>
      by_cases hp : sep.isPrefixOf (x :: rest) = true
      · right
        simp [hasSubstr, hp]
      · rcases ih rest with h1 | h2
        · left
          simp only [pySplitF, hp, if_false]
          rcases hq : pySplitF sep n rest with _ | ⟨p, ps⟩
          · simp
          · rw [hq] at h1
            simp at h1 ⊢
            exact h1
        · right
          simp [hasSubstr, h2]

lemma pySplitStr_length_one (sep s : String)
    (h : hasSubstr sep.toList s.toList = false) :
    (pySplitStr sep s).length = 1 := by
  unfold pySplitStr
  rw [List.length_map]
  rcases pySplitF_single_or_hasSubstr sep.toList (s.toList.length + 1) s.toList with h1 | h2
  · exact h1
  · rw [h2] at h
    cases h

lemma foldl_pdStep (lines : List String) :
    ∀ (d : Dict) (ls : List LogMsg),
      lines.foldl pdStep (d, ls) =
        ((lines.filterMap parseLine).foldl (fun acc e => dinsert e.1 e.2 acc) d,
          ls ++ lines.map lineLog) := by
  induction lines with
  | nil => intro d ls; simp
  | cons line rest ih =>
    intro d ls
    rcases hp : parseLine line with _ | e
    · simp only [List.foldl_cons, List.filterMap_cons, hp, List.map_cons]
      rw [show pdStep (d, ls) line = (d, ls ++ [LogMsg.invalidLine line]) from by
        simp [pdStep, hp]]
      rw [ih]
      simp [lineLog, hp]
    · obtain ⟨c, r, b⟩ := e
      simp only [List.foldl_cons, List.filterMap_cons, hp, List.map_cons]
      rw [show pdStep (d, ls) line = (dinsert c (r, b) d, ls ++ [LogMsg.willUse c r b]) from by
        simp [pdStep, hp]]
      rw [ih]
      simp [lineLog, hp]

lemma parse_deps_fst (deps : String) :
    (parse_deps deps).1 = dictOfEntries (wellFormedEntries deps) := by
  unfold parse_deps dictOfEntries wellFormedEntries strippedLines
  rw [foldl_pdStep]

lemma dlookup_dinsert {α : Type} (k c : String) (v : α) (d : List (String × α)) :
    dlookup c (dinsert k v d) = if k == c then some v else dlookup c d := by
  induction d with
  | nil => simp [dinsert, dlookup]
  | cons e rest ih =>
    by_cases he : (e.1 == k) = true
    · have hek : e.1 = k := by simpa using he
      simp only [dinsert, he, if_true]
      by_cases hkc : (k == c) = true
      · simp [dlookup, hkc]
      · have hec : (e.1 == c) = false := by
          rw [hek]
          simpa using hkc
        simp [dlookup, hkc, hec]
    · simp only [dinsert, he, if_false]
      by_cases hec : (e.1 == c) = true
      · have hkc : (k == c) = false := by
          have h1 : e.1 = c := by simpa using hec
          have h2 : ¬(e.1 = k) := by simpa using he
          simp only [beq_eq_false_iff_ne, ne_eq]
          intro hk
          exact h2 (by rw [h1, hk])
        simp [dlookup, hec, hkc]
      · simp [dlookup, hec, ih]

lemma findq_append {α : Type} (p : α → Bool) (l1 l2 : List α) :
    (l1 ++ l2).find? p =
      match l1.find? p with
      | some x => some x
      | none => l2.find? p := by
  induction l1 with
  | nil => simp
  | cons a l ih =>
    by_cases hp : p a = true
    · simp [List.find?_cons_of_pos, hp]
    · simp only [List.cons_append]
      rw [List.find?_cons_of_neg _ (by simp [hp]), List.find?_cons_of_neg _ (by simp [hp])]
      exact ih

lemma dlookup_foldl_dinsert (es : List (String × (String × String))) (c : String) :
    ∀ d : Dict,
      dlookup c (es.foldl (fun acc e => dinsert e.1 e.2 acc) d) =
        match es.reverse.find? (fun e => e.1 == c) with
        | some e => some e.2
        | none => dlookup c d := by
  induction es with
  | nil => intro d; simp
  | cons e rest ih =>
    intro d
    simp only [List.foldl_cons, List.reverse_cons]
    rw [ih, findq_append]
    cases hf : rest.reverse.find? (fun x => x.1 == c) with
    | none =>
      by_cases he : (e.1 == c) = true
      · rw [dlookup_dinsert]
        simp [List.find?_cons_of_pos _ he, he]
      · have hef : (e.1 == c) = false := by simpa using he
        rw [dlookup_dinsert]
        simp [List.find?_cons_of_neg, hef]
    | some x => rfl

lemma dlookup_dictOfEntries (es : List (String × (String × String))) (c : String) :
    dlookup c (dictOfEntries es) =
      (es.reverse.find? (fun e => e.1 == c)).map (fun e => e.2) := by
  unfold dictOfEntries
  rw [dlookup_foldl_dinsert]
  cases hf : es.reverse.find? (fun e => e.1 == c) with
  | none => simp [dlookup]
  | some x => rfl

lemma dlookup_dictOfEntries_isSome (es : List (String × (String × String))) (c : String) :
    (dlookup c (dictOfEntries es)).isSome = true ↔ ∃ e ∈ es, e.1 = c := by
  rw [dlookup_dictOfEntries]
  cases hf : es.reverse.find? (fun e => e.1 == c) with
  | none =>
    simp only [Option.map_none', Option.isSome_none, Bool.false_eq_true, false_iff]
    rw [List.find?_eq_none] at hf
    rintro ⟨e, he, hec⟩
    have := hf e (by simpa using he)
    simp [hec] at this
  | some x =>
    simp only [Option.map_some', Option.isSome_some, true_iff]
    have hx := List.find?_some hf
    have hmem := List.mem_of_find?_eq_some hf
    exact ⟨x, by simpa using hmem, by simpa using hx⟩

lemma parseLine_eq_some_iff (line c r b : String) :
    parseLine line = some (c, (r, b)) ↔ ∃ t, pySplitStr " " line = [t, c, r, b] := by
  unfold parseLine
  constructor
  · intro h
    split at h
    · rename_i t c2 r2 b2 heq
      cases h
      exact ⟨t, heq⟩
    · exact absurd h (by simp)
  · rintro ⟨t, ht⟩
    rw [ht]

lemma hasKey_eq_of_perm {α : Type} {ov ov2 : List (String × α)} (h : ov.Perm ov2)
    (c : String) : hasKey ov c = hasKey ov2 c := by
  unfold hasKey
  induction h with
  | nil => rfl
  | cons x _ ih => simp [List.any_cons, ih]
  | swap x y l =>
    simp only [List.any_cons]
    cases hx : (x.1 == c) <;> cases hy : (y.1 == c) <;> simp
  | trans _ _ ih1 ih2 => rw [ih1, ih2]

lemma buildBlock_hasKey_congr (mvn : String → Int) (ver : String → String)
    (ov ov2 : Dict) (h : ∀ c, hasKey ov c = hasKey ov2 c) (blk : Block) (st : BState) :
    buildBlock mvn ver ov blk st = buildBlock mvn ver ov2 blk st := by
  unfold buildBlock
  rw [h blk.name]

lemma runBlocks_hasKey_congr (mvn : String → Int) (ver : String → String)
    (ov ov2 : Dict) (h : ∀ c, hasKey ov c = hasKey ov2 c) :
    ∀ (bs : List Block) (st : BState),
      runBlocks mvn ver ov bs st = runBlocks mvn ver ov2 bs st := by
  intro bs
  induction bs with
  | nil => intro st; rfl
  | cons b rest ih =>
    intro st
    simp only [runBlocks]
    rw [buildBlock_hasKey_congr mvn ver ov ov2 h b st]
    cases buildBlock mvn ver ov2 b st with
    | error e => rfl
    | ok st1 => exact ih st1

lemma runBlocks_ok (mvn : String → Int) (ver : String → String) (ov : Dict) :
    ∀ (bs : List Block) (st : BState),
      (∀ b ∈ bs, hasKey ov b.name = true → mvn ("./" ++ b.name) = 0) →
      ∃ st2, runBlocks mvn ver ov bs st = Except.ok st2 ∧
        st2.events.map (fun e => e.component) =
          st.events.map (fun e => e.component) ++
            ((bs.filter fun b => hasKey ov b.name).map Block.name) := by
  intro bs
  induction bs with
  | nil => intro st _; exact ⟨st, rfl, by simp⟩
  | cons b rest ih =>
    intro st hok
    by_cases hk : hasKey ov b.name = true
    · have hm : mvn ("./" ++ b.name) = 0 := hok b (by simp) hk
      have hbb : buildBlock mvn ver ov b st =
          Except.ok (BState.mk
            (if b.record then dinsert b.name (ver ("./" ++ b.name)) st.versions else st.versions)
            (st.events ++
              [BuildEvent.mk b.name (update_maven_deps st.versions ("./" ++ b.name))])) := by
        unfold buildBlock build_component
        rw [if_pos hk]
        simp [hm]
      simp only [runBlocks, hbb]
      obtain ⟨st2, h1, h2⟩ := ih _ (fun x hx => hok x (by simp [hx]))
      refine ⟨st2, h1, ?_⟩
      rw [h2]
      simp [hk]
    · have hbb : buildBlock mvn ver ov b st = Except.ok st := by
        unfold buildBlock
        rw [if_neg hk]
      simp only [runBlocks, hbb]
      obtain ⟨st2, h1, h2⟩ := ih st (fun x hx => hok x (by simp [hx]))
      refine ⟨st2, h1, ?_⟩
      rw [h2]
      simp [hk]

lemma filter_name_map (p : String → Bool) :
    ∀ bs : List Block,
      ((bs.filter fun b => p b.name).map Block.name) = (bs.map Block.name).filter p := by
  intro bs
  induction bs with
  | nil => rfl
  | cons b rest ih => by_cases hb : p b.name <;> simp [hb, ih]

lemma blockList_names : blockList.map Block.name = componentBuildOrder := rfl

lemma runBlocks_append (mvn : String → Int) (ver : String → String) (ov : Dict) :
    ∀ (bs1 bs2 : List Block) (st : BState),
      runBlocks mvn ver ov (bs1 ++ bs2) st =
        match runBlocks mvn ver ov bs1 st with
        | Except.error e => Except.error e
        | Except.ok st1 => runBlocks mvn ver ov bs2 st1 := by
  intro bs1
  induction bs1 with
  | nil => intro bs2 st; rfl
  | cons b rest ih =>
    intro bs2 st
    simp only [List.cons_append, runBlocks]
    cases buildBlock mvn ver ov b st with
    | error e => rfl
    | ok st1 => exact ih bs2 st1

lemma takeAppendOfLe {α : Type} :
    ∀ (l1 l2 : List α) (n : Nat), n ≤ l1.length → (l1 ++ l2).take n = l1.take n := by
  intro l1
  induction l1 with
  | nil =>
    intro l2 n hn
    simp at hn
    simp [hn]
  | cons a l ih =>
    intro l2 n hn
    cases n with
    | zero => simp
    | succ m =>
      simp only [List.cons_append, List.take_succ_cons]
      rw [ih l2 m (by simpa using hn)]

lemma goodEvents_nil (ver : String → String) : GoodEvents ver [] := by
  intro i e he
  simp [List.get?] at he

lemma goodEvents_append (ver : String → String) (evs : List BuildEvent) (ev : BuildEvent)
    (h : GoodEvents ver evs)
    (hev : ev.substitutions =
      update_maven_deps (evs.map fun x => (x.component, ver ("./" ++ x.component)))
        ("./" ++ ev.component)) :
    GoodEvents ver (evs ++ [ev]) := by
  intro i e he
  rcases Nat.lt_or_ge i evs.length with hlt | hge
  · rw [List.get?_append hlt] at he
    rw [takeAppendOfLe evs [ev] i (Nat.le_of_lt hlt)]
    exact h i e he
  · have hi : i < (evs ++ [ev]).length := by
      obtain ⟨hbound, _⟩ := List.get?_eq_some.mp he
      exact hbound
    have hieq : i = evs.length := by
      simp only [List.length_append, List.length_singleton] at hi
      omega
    subst hieq
    rw [List.get?_concat_length] at he
    cases he
    rw [takeAppendOfLe evs [ev] evs.length (Nat.le_refl _), List.take_length]
    exact hev

lemma dinsert_eq_append {α : Type} (k : String) (v : α) :
    ∀ d : List (String × α), k ∉ d.map Prod.fst → dinsert k v d = d ++ [(k, v)] := by
  intro d
  induction d with
  | nil => intro _; rfl
  | cons e rest ih =>
    intro hk
    simp only [List.map_cons, List.mem_cons] at hk
    push_neg at hk
    have h1 : (e.1 == k) = false := by
      simp only [beq_eq_false_iff_ne, ne_eq]
      exact fun h => hk.1 h.symm
    simp only [dinsert, h1, Bool.false_eq_true, if_false, List.cons_append]
    rw [ih hk.2]

lemma runBlocks_good (mvn : String → Int) (ver : String → String) (ov : Dict) :
    ∀ (bs : List Block) (st : BState),
      (∀ x ∈ bs, x.record = true) →
      (bs.map Block.name).Nodup →
      (∀ e ∈ st.events, e.component ∉ bs.map Block.name) →
      st.versions = (st.events.map fun x => (x.component, ver ("./" ++ x.component))) →
      GoodEvents ver st.events →
      (∀ e ∈ st.events, hasKey ov e.component = true) →
      (∀ e ∈ st.events, mvn ("./" ++ e.component) = 0) →
      (∃ st2, runBlocks mvn ver ov bs st = Except.ok st2 ∧
        st2.versions = (st2.events.map fun x => (x.component, ver ("./" ++ x.component))) ∧
        GoodEvents ver st2.events ∧
        (∀ e ∈ st2.events, hasKey ov e.component = true) ∧
        (∀ e ∈ st2.events, mvn ("./" ++ e.component) = 0) ∧
        (∀ e ∈ st2.events, e.component ∈ st.events.map (fun x => x.component) ∨
          e.component ∈ bs.map Block.name)) ∨
      (∃ evs0 ev, runBlocks mvn ver ov bs st = Except.error (1, evs0 ++ [ev]) ∧
        GoodEvents ver (evs0 ++ [ev]) ∧
        (∀ e ∈ evs0 ++ [ev], hasKey ov e.component = true) ∧
        (∀ e ∈ evs0, mvn ("./" ++ e.component) = 0) ∧
        mvn ("./" ++ ev.component) ≠ 0) := by
  intro bs
  induction bs with
  | nil =>
    intro st _ _ _ hver hgood hovr hsucc
    exact Or.inl ⟨st, rfl, hver, hgood, hovr, hsucc,
      fun e he => Or.inl (List.mem_map_of_mem _ he)⟩
  | cons b rest ih =>
    intro st hrec hnd hdisj hver hgood hovr hsucc
    have hnd2 : (rest.map Block.name).Nodup := by
      simp only [List.map_cons] at hnd
      exact hnd.of_cons
    have hbnotin : b.name ∉ rest.map Block.name := by
      simp only [List.map_cons] at hnd
      exact (List.nodup_cons.mp hnd).1
    by_cases hk : hasKey ov b.name = true
    · have hgood2 : GoodEvents ver
          (st.events ++ [BuildEvent.mk b.name (update_maven_deps st.versions ("./" ++ b.name))]) := by
        refine goodEvents_append ver st.events _ hgood ?_
        show update_maven_deps st.versions ("./" ++ b.name) =
          update_maven_deps (st.events.map fun x => (x.component, ver ("./" ++ x.component)))
            ("./" ++ b.name)
        rw [hver]
      have hovr2 : ∀ e ∈
          st.events ++ [BuildEvent.mk b.name (update_maven_deps st.versions ("./" ++ b.name))],
          hasKey ov e.component = true := by
        intro e he
        rcases List.mem_append.mp he with h1 | h1
        · exact hovr e h1
        · have he2 : e = BuildEvent.mk b.name (update_maven_deps st.versions ("./" ++ b.name)) := by
            simpa using h1
          rw [he2]
          exact hk
      by_cases hm : mvn ("./" ++ b.name) = 0
      · have hrecb : b.record = true := hrec b (by simp)
        have hfreshv : b.name ∉ st.versions.map Prod.fst := by
          rw [hver]
          simp only [List.map_map]
          intro hcon
          obtain ⟨e, he, heq⟩ := List.mem_map.mp hcon
          have hc : e.component = b.name := heq
          exact (hdisj e he) (by simp [hc])
        have hbb : buildBlock mvn ver ov b st =
            Except.ok (BState.mk (dinsert b.name (ver ("./" ++ b.name)) st.versions)
              (st.events ++
                [BuildEvent.mk b.name (update_maven_deps st.versions ("./" ++ b.name))])) := by
          unfold buildBlock build_component
          rw [if_pos hk]
          simp [hm, hrecb]
        simp only [runBlocks, hbb]
        have hver2 : dinsert b.name (ver ("./" ++ b.name)) st.versions =
            ((st.events ++
              [BuildEvent.mk b.name (update_maven_deps st.versions ("./" ++ b.name))]).map
                fun x => (x.component, ver ("./" ++ x.component))) := by
          rw [dinsert_eq_append _ _ _ hfreshv, hver]
          simp
        have hdisj2 : ∀ e ∈
            st.events ++ [BuildEvent.mk b.name (update_maven_deps st.versions ("./" ++ b.name))],
            e.component ∉ rest.map Block.name := by
          intro e he
          rcases List.mem_append.mp he with h1 | h1
          · exact fun hb => hdisj e h1 (by simp [hb])
          · have he2 : e = BuildEvent.mk b.name (update_maven_deps st.versions ("./" ++ b.name)) := by
              simpa using h1
            rw [he2]
            exact hbnotin
        have hsucc2 : ∀ e ∈
            st.events ++ [BuildEvent.mk b.name (update_maven_deps st.versions ("./" ++ b.name))],
            mvn ("./" ++ e.component) = 0 := by
          intro e he
          rcases List.mem_append.mp he with h1 | h1
          · exact hsucc e h1
          · have he2 : e = BuildEvent.mk b.name (update_maven_deps st.versions ("./" ++ b.name)) := by
              simpa using h1
            rw [he2]
            exact hm
        rcases ih (BState.mk (dinsert b.name (ver ("./" ++ b.name)) st.versions)
            (st.events ++ [BuildEvent.mk b.name (update_maven_deps st.versions ("./" ++ b.name))]))
            (fun x hx => hrec x (by simp [hx])) hnd2 hdisj2 hver2 hgood2 hovr2 hsucc2 with
          ⟨st3, hrun, p1, p2, p3, p4, p5⟩ | hr
        · refine Or.inl ⟨st3, hrun, p1, p2, p3, p4, ?_⟩
          intro e he
          rcases p5 e he with h1 | h1
          · simp only [List.map_append, List.mem_append] at h1
            rcases h1 with h2 | h2
            · exact Or.inl h2
            · have : e.component = b.name := by simpa using h2
              exact Or.inr (by simp [this])
          · exact Or.inr (by simp [h1])
        · exact Or.inr hr
      · have hbb : buildBlock mvn ver ov b st =
            Except.error (1, st.events ++
              [BuildEvent.mk b.name (update_maven_deps st.versions ("./" ++ b.name))]) := by
          unfold buildBlock build_component
          rw [if_pos hk]
          simp [hm]
        simp only [runBlocks, hbb]
        exact Or.inr ⟨st.events,
          BuildEvent.mk b.name (update_maven_deps st.versions ("./" ++ b.name)),
          rfl, hgood2, hovr2, hsucc, hm⟩
    · have hbb : buildBlock mvn ver ov b st = Except.ok st := by
        unfold buildBlock
        rw [if_neg hk]
      simp only [runBlocks, hbb]
      have hdisj2 : ∀ e ∈ st.events, e.component ∉ rest.map Block.name := by
        intro e he hb
        exact hdisj e he (by simp [hb])
      rcases ih st (fun x hx => hrec x (by simp [hx])) hnd2 hdisj2 hver hgood hovr hsucc with
        ⟨st3, hrun, p1, p2, p3, p4, p5⟩ | hr
      · refine Or.inl ⟨st3, hrun, p1, p2, p3, p4, ?_⟩
        intro e he
        rcases p5 e he with h1 | h1
        · exact Or.inl h1
        · exact Or.inr (by simp [h1])
      · exact Or.inr hr

/-- C3: for every input deps string, parse_deps skips each malformed line (a
stripped line that does not split into exactly four space-separated tokens)
after logging a message about it, continues with the remaining lines, and
returns the overrides parsed from all well-formed lines: the resulting dict is
built from exactly the entries of the well-formed lines in order, and the log
contains exactly one message per stripped line, the invalid-line message for
each malformed line and the will-use message for each well-formed line. -/
theorem parse_deps_tolerant (deps : String) :
    parse_deps deps =
      (dictOfEntries (wellFormedEntries deps), (strippedLines deps).map lineLog) := by
  unfold parse_deps dictOfEntries wellFormedEntries strippedLines
  rw [foldl_pdStep]
  simp

/-- C9: for every deps string with two or more well-formed lines naming the
same component, parse_deps returns the (repo, branch) pair of the last such
line for that component; earlier entries are overwritten. -/
theorem parse_deps_last_wins (deps c r b : String)
    (_htwo : 2 ≤ ((wellFormedEntries deps).filter fun e => e.1 == c).length)
    (hlast : (wellFormedEntries deps).reverse.find? (fun e => e.1 == c) = some (c, (r, b))) :
    dlookup c (parse_deps deps).1 = some (r, b) := by
  rw [parse_deps_fst, dlookup_dictOfEntries, hlast]
  rfl

theorem parse_deps_last_wins_witness :
    (2 ≤ ((wellFormedEntries "use comp r1 b1\nuse comp r2 b2").filter
        fun e => e.1 == "comp").length) ∧
    ((wellFormedEntries "use comp r1 b1\nuse comp r2 b2").reverse.find?
        (fun e => e.1 == "comp") = some ("comp", ("r2", "b2"))) ∧
    dlookup "comp" (parse_deps "use comp r1 b1\nuse comp r2 b2").1 = some ("r2", "b2") :=
  ⟨by decide, by decide,
    parse_deps_last_wins "use comp r1 b1\nuse comp r2 b2" "comp" "r2" "b2"
      (by decide) (by decide)⟩

/-- C6 counterexample: the line "foo a b c" does not start with the token use,
yet parse_deps produces the override a maps to (b, c) from it: the first token
of a line is never inspected, so the claim that only lines of the form
use component repo branch produce overrides is false. -/
theorem parse_deps_first_token_cex :
    dlookup "a" (parse_deps "foo a b c").1 = some ("b", "c") := by decide

/-- C6 amended: parse_deps produces an override entry for a component exactly
when some stripped line splits on single spaces into exactly four tokens whose
second token is that component; the first token is ignored and need not be
use. -/
theorem parse_deps_entry_iff (deps c : String) :
    (dlookup c (parse_deps deps).1).isSome = true ↔
      ∃ line ∈ strippedLines deps, ∃ t r b, pySplitStr " " line = [t, c, r, b] := by
  rw [parse_deps_fst, dlookup_dictOfEntries_isSome]
  unfold wellFormedEntries
  constructor
  · rintro ⟨e, he, hc⟩
    rw [List.mem_filterMap] at he
    obtain ⟨line, hline, hpl⟩ := he
    obtain ⟨c0, r, b⟩ := e
    have hc0 : c0 = c := hc
    subst hc0
    obtain ⟨t, ht⟩ := (parseLine_eq_some_iff line c0 r b).mp hpl
    exact ⟨line, hline, t, r, b, ht⟩
  · rintro ⟨line, hline, t, r, b, hsplit⟩
    refine ⟨(c, (r, b)), ?_, rfl⟩
    rw [List.mem_filterMap]
    exact ⟨line, hline, (parseLine_eq_some_iff line c r b).mpr ⟨t, hsplit⟩⟩

theorem parse_deps_entry_iff_witness :
    (dlookup "a" (parse_deps "use a b c").1).isSome = true :=
  (parse_deps_entry_iff "use a b c" "a").mpr
    ⟨"use a b c", by decide, "use", "b", "c", by decide⟩

/-- C8: for every PR body that does not contain the substring deps:, the split
on that marker yields a single element, so the index expression
pr_body.split("deps:")[1] in main raises an uncaught IndexError; the program
neither terminates cleanly nor treats the override set as empty. -/
theorem main_missing_deps_marker_raises (pr_body : String)
    (h : hasSubstr "deps:".toList pr_body.toList = false) :
    (pySplitStr "deps:" pr_body).length = 1 ∧
    mainExtractDeps pr_body = Except.error PyExc.indexError := by
  have hlen := pySplitStr_length_one "deps:" pr_body h
  refine ⟨hlen, ?_⟩
  unfold mainExtractDeps
  obtain ⟨a, ha⟩ := List.length_eq_one.mp hlen
  rw [ha]
  rfl

theorem main_missing_deps_marker_raises_witness :
    hasSubstr "deps:".toList "hello".toList = false ∧
    ((pySplitStr "deps:" "hello").length = 1 ∧
      mainExtractDeps "hello" = Except.error PyExc.indexError) :=
  ⟨by decide, main_missing_deps_marker_raises "hello" (by decide)⟩

/-- C1: build_components depends on the overridden mapping only through key
membership, so permuting the overrides (any insertion order of the mapping)
yields the identical run; and when the requested components are among the
known fixed list and the builds succeed, the components built are exactly the
requested ones, in the single fixed precedence order jitsi-utils, jicoco, rtp,
jitsi-media-transform, jitsi-videobridge. -/
theorem build_components_fixed_order (mvn : String → Int) (ver : String → String)
    (ov ov2 : Dict) (hperm : ov.Perm ov2)
    (hknown : ∀ e ∈ ov, e.1 ∈ componentBuildOrder)
    (hok : ∀ d, mvn d = 0) :
    build_components mvn ver ov2 = build_components mvn ver ov ∧
    ∃ evs, build_components mvn ver ov = Except.ok evs ∧
      evs.map (fun e => e.component) = componentBuildOrder.filter (fun c => hasKey ov c) ∧
      (∀ c, hasKey ov c = true ↔ c ∈ evs.map (fun e => e.component)) := by
  constructor
  · unfold build_components
    rw [runBlocks_hasKey_congr mvn ver ov2 ov (fun c => (hasKey_eq_of_perm hperm c).symm)]
  · obtain ⟨st2, h1, h2⟩ := runBlocks_ok mvn ver ov blockList (BState.mk [] [])
      (fun b _ _ => hok _)
    have hmap : st2.events.map (fun e => e.component) =
        componentBuildOrder.filter (fun c => hasKey ov c) := by
      rw [h2]
      simp [filter_name_map (fun c => hasKey ov c) blockList, blockList_names]
    refine ⟨st2.events, by unfold build_components; rw [h1], hmap, ?_⟩
    intro c
    rw [hmap]
    constructor
    · intro hc
      rw [List.mem_filter]
      refine ⟨?_, hc⟩
      unfold hasKey at hc
      rw [List.any_eq_true] at hc
      obtain ⟨e, he, hec⟩ := hc
      have hec2 : e.1 = c := by simpa using hec
      rw [← hec2]
      exact hknown e he
    · intro hc
      exact (List.mem_filter.mp hc).2

theorem build_components_fixed_order_witness :
    build_components (fun _ => (0 : Int)) (fun _ => "1.0")
        [("jitsi-utils", ("r2", "br2")), ("jicoco", ("r1", "br1"))] =
      build_components (fun _ => (0 : Int)) (fun _ => "1.0")
        [("jicoco", ("r1", "br1")), ("jitsi-utils", ("r2", "br2"))] ∧
    ∃ evs, build_components (fun _ => (0 : Int)) (fun _ => "1.0")
        [("jicoco", ("r1", "br1")), ("jitsi-utils", ("r2", "br2"))] = Except.ok evs ∧
      evs.map (fun e => e.component) =
        componentBuildOrder.filter
          (fun c => hasKey [("jicoco", ("r1", "br1")), ("jitsi-utils", ("r2", "br2"))] c) ∧
      (∀ c, hasKey [("jicoco", ("r1", "br1")), ("jitsi-utils", ("r2", "br2"))] c = true ↔
        c ∈ evs.map (fun e => e.component)) :=
  build_components_fixed_order (fun _ => (0 : Int)) (fun _ => "1.0")
    [("jicoco", ("r1", "br1")), ("jitsi-utils", ("r2", "br2"))]
    [("jitsi-utils", ("r2", "br2")), ("jicoco", ("r1", "br1"))]
    (List.Perm.swap ("jitsi-utils", ("r2", "br2")) ("jicoco", ("r1", "br1")) [])
    (by decide) (fun d => rfl)

/-- C2 counterexample: with the override set containing only the unknown
component name jitsi-metaconfig, build_components returns normally with no
build started and no error raised, so the claim that an unknown component
name makes the run abort with a fatal error before any build is false. -/
theorem build_components_unknown_not_fatal_cex :
    build_components (fun _ => (0 : Int)) (fun _ => "1.0")
      [("jitsi-metaconfig", ("r", "b"))] = Except.ok [] := by rfl

/-- C2 amended: a component name outside the known fixed list is silently
ignored by build_components: it is never built and causes no error, and the
run completes normally building exactly the known overridden components (the
source carries a TODO to at least log a warning for unrecognised names, which
is not implemented). -/
theorem build_components_unknown_ignored (mvn : String → Int) (ver : String → String)
    (ov : Dict) (hok : ∀ d, mvn d = 0) :
    ∃ evs, build_components mvn ver ov = Except.ok evs ∧
      evs.map (fun e => e.component) = componentBuildOrder.filter (fun c => hasKey ov c) ∧
      (∀ e ∈ evs, e.component ∈ componentBuildOrder) := by
  obtain ⟨st2, h1, h2⟩ := runBlocks_ok mvn ver ov blockList (BState.mk [] [])
    (fun b _ _ => hok _)
  have hmap : st2.events.map (fun e => e.component) =
      componentBuildOrder.filter (fun c => hasKey ov c) := by
    rw [h2]
    simp [filter_name_map (fun c => hasKey ov c) blockList, blockList_names]
  refine ⟨st2.events, by unfold build_components; rw [h1], hmap, ?_⟩
  intro e he
  have hmem : e.component ∈ st2.events.map (fun x => x.component) :=
    List.mem_map_of_mem _ he
  rw [hmap] at hmem
  exact (List.mem_filter.mp hmem).1

theorem build_components_unknown_ignored_witness :
    ∃ evs, build_components (fun _ => (0 : Int)) (fun _ => "1.0")
        [("jitsi-metaconfig", ("m", "mb")), ("rtp", ("r", "rb"))] = Except.ok evs ∧
      evs.map (fun e => e.component) =
        componentBuildOrder.filter
          (fun c => hasKey [("jitsi-metaconfig", ("m", "mb")), ("rtp", ("r", "rb"))] c) ∧
      (∀ e ∈ evs, e.component ∈ componentBuildOrder) :=
  build_components_unknown_ignored (fun _ => (0 : Int)) (fun _ => "1.0")
    [("jitsi-metaconfig", ("m", "mb")), ("rtp", ("r", "rb"))] (fun _ => rfl)

/-- C4: when an overridden component's mvn invocation exits non-zero and every
overridden component before it in the fixed order builds cleanly, the whole
run aborts with exit status 1 at that component: the builds performed are
exactly the successful earlier ones followed by the failing one, so no
subsequent component is built and no later substitution is attempted (every
substitution of a run belongs to one of its recorded builds). -/
theorem build_components_abort_on_failure (mvn : String → Int) (ver : String → String)
    (ov : Dict) (B1 B2 : List Block) (b : Block)
    (hsplit : blockList = B1 ++ b :: B2)
    (hov : hasKey ov b.name = true)
    (hfail : mvn ("./" ++ b.name) ≠ 0)
    (hpre : ∀ x ∈ B1, hasKey ov x.name = true → mvn ("./" ++ x.name) = 0) :
    ∃ evs, build_components mvn ver ov = Except.error (1, evs) ∧
      evs.map (fun e => e.component) =
        ((B1.filter fun x => hasKey ov x.name).map Block.name) ++ [b.name] := by
  obtain ⟨st1, h1, h2⟩ := runBlocks_ok mvn ver ov B1 (BState.mk [] []) hpre
  have hbb : buildBlock mvn ver ov b st1 =
      Except.error (1, st1.events ++
        [BuildEvent.mk b.name (update_maven_deps st1.versions ("./" ++ b.name))]) := by
    unfold buildBlock build_component
    rw [if_pos hov]
    simp [hfail]
  refine ⟨st1.events ++
    [BuildEvent.mk b.name (update_maven_deps st1.versions ("./" ++ b.name))], ?_, ?_⟩
  · unfold build_components
    rw [hsplit, runBlocks_append, h1]
    simp only [runBlocks, hbb]
  · simp only [List.map_append]
    rw [h2]
    simp

theorem build_components_abort_on_failure_witness :
    ∃ evs, build_components (fun d => if d == "./rtp" then (1 : Int) else 0)
        (fun _ => "1.0") [("jicoco", ("r", "br")), ("rtp", ("r2", "br2"))] =
      Except.error (1, evs) ∧
      evs.map (fun e => e.component) =
        (([Block.mk "jitsi-utils" true, Block.mk "jicoco" true].filter
          fun x => hasKey [("jicoco", ("r", "br")), ("rtp", ("r2", "br2"))] x.name).map
            Block.name) ++ ["rtp"] :=
  build_components_abort_on_failure (fun d => if d == "./rtp" then (1 : Int) else 0)
    (fun _ => "1.0") [("jicoco", ("r", "br")), ("rtp", ("r2", "br2"))]
    [Block.mk "jitsi-utils" true, Block.mk "jicoco" true]
    [Block.mk "jitsi-media-transform" true, Block.mk "jitsi-videobridge" false]
    (Block.mk "rtp" true) rfl (by decide) (by decide) (by decide)

/-- C5: in every run, completed or aborted, the substitution commands applied
to the pom of the i-th build are exactly one per build completed earlier in
the same run, in build order, each setting that earlier component's artifact
to the version read back from that component's own pom; every build of the
run is of an overridden component, and every build preceding the i-th exited
successfully.  Hence a version substitution is applied for a component if and
only if that component was itself overridden and successfully built earlier
in the run. -/
theorem build_components_subst_prior_builds (mvn : String → Int) (ver : String → String)
    (ov : Dict) (evs : List BuildEvent)
    (h : build_components mvn ver ov = Except.ok evs ∨
         build_components mvn ver ov = Except.error (1, evs)) :
    ∀ i e, evs.get? i = some e →
      e.substitutions =
        update_maven_deps ((evs.take i).map fun x => (x.component, ver ("./" ++ x.component)))
          ("./" ++ e.component) ∧
      hasKey ov e.component = true ∧
      (∀ x ∈ evs.take i, mvn ("./" ++ x.component) = 0) := by
  have hkey : blockList =
      [Block.mk "jitsi-utils" true, Block.mk "jicoco" true, Block.mk "rtp" true,
        Block.mk "jitsi-media-transform" true] ++ [Block.mk "jitsi-videobridge" false] := rfl
  rcases runBlocks_good mvn ver ov
      [Block.mk "jitsi-utils" true, Block.mk "jicoco" true, Block.mk "rtp" true,
        Block.mk "jitsi-media-transform" true] (BState.mk [] [])
      (by decide) (by decide)
      (fun e he => absurd he (List.not_mem_nil e))
      rfl (goodEvents_nil ver)
      (fun e he => absurd he (List.not_mem_nil e))
      (fun e he => absurd he (List.not_mem_nil e)) with
    ⟨st4, hrun4, q1, q2, q3, q4, _⟩ | ⟨evs0, ev, hrun4, g, o, pre, hfail⟩
  · by_cases hk : hasKey ov "jitsi-videobridge" = true
    · by_cases hm : mvn "./jitsi-videobridge" = 0
      · have hbb : buildBlock mvn ver ov (Block.mk "jitsi-videobridge" false) st4 =
            Except.ok (BState.mk st4.versions (st4.events ++
              [BuildEvent.mk "jitsi-videobridge"
                (update_maven_deps st4.versions ("./" ++ "jitsi-videobridge"))])) := by
          unfold buildBlock build_component
          simp [hk, hm]
        have hbc : build_components mvn ver ov =
            Except.ok (st4.events ++
              [BuildEvent.mk "jitsi-videobridge"
                (update_maven_deps st4.versions ("./" ++ "jitsi-videobridge"))]) := by
          unfold build_components
          rw [hkey, runBlocks_append, hrun4]
          simp only [runBlocks, hbb]
        have hevs : evs = st4.events ++
            [BuildEvent.mk "jitsi-videobridge"
              (update_maven_deps st4.versions ("./" ++ "jitsi-videobridge"))] := by
          rcases h with h1 | h1 <;> rw [hbc] at h1
          · exact (by simpa using h1 : _ = evs).symm
          · simp at h1
        subst hevs
        have hgood5 : GoodEvents ver (st4.events ++
            [BuildEvent.mk "jitsi-videobridge"
              (update_maven_deps st4.versions ("./" ++ "jitsi-videobridge"))]) := by
          refine goodEvents_append ver st4.events _ q2 ?_
          show update_maven_deps st4.versions ("./" ++ "jitsi-videobridge") =
            update_maven_deps (st4.events.map fun x => (x.component, ver ("./" ++ x.component)))
              ("./" ++ "jitsi-videobridge")
          rw [← q1]
        intro i e2 he2
        refine ⟨hgood5 i e2 he2, ?_, ?_⟩
        · have hmem := List.get?_mem he2
          rcases List.mem_append.mp hmem with h1 | h1
          · exact q3 e2 h1
          · have he3 : e2 = BuildEvent.mk "jitsi-videobridge"
                (update_maven_deps st4.versions ("./" ++ "jitsi-videobridge")) := by
              simpa using h1
            rw [he3]
            exact hk
        · intro x hx
          have hxmem := List.take_subset i _ hx
          rcases List.mem_append.mp hxmem with h1 | h1
          · exact q4 x h1
          · have hx3 : x = BuildEvent.mk "jitsi-videobridge"
                (update_maven_deps st4.versions ("./" ++ "jitsi-videobridge")) := by
              simpa using h1
            rw [hx3]
            exact hm
      · have hbb : buildBlock mvn ver ov (Block.mk "jitsi-videobridge" false) st4 =
            Except.error (1, st4.events ++
              [BuildEvent.mk "jitsi-videobridge"
                (update_maven_deps st4.versions ("./" ++ "jitsi-videobridge"))]) := by
          unfold buildBlock build_component
          simp [hk, hm]
        have hbc : build_components mvn ver ov =
            Except.error (1, st4.events ++
              [BuildEvent.mk "jitsi-videobridge"
                (update_maven_deps st4.versions ("./" ++ "jitsi-videobridge"))]) := by
          unfold build_components
          rw [hkey, runBlocks_append, hrun4]
          simp only [runBlocks, hbb]
        have hevs : evs = st4.events ++
            [BuildEvent.mk "jitsi-videobridge"
              (update_maven_deps st4.versions ("./" ++ "jitsi-videobridge"))] := by
          rcases h with h1 | h1 <;> rw [hbc] at h1
          · simp at h1
          · exact (by simpa using h1 : _ = evs).symm
        subst hevs
        have hgood5 : GoodEvents ver (st4.events ++
            [BuildEvent.mk "jitsi-videobridge"
              (update_maven_deps st4.versions ("./" ++ "jitsi-videobridge"))]) := by
          refine goodEvents_append ver st4.events _ q2 ?_
          show update_maven_deps st4.versions ("./" ++ "jitsi-videobridge") =
            update_maven_deps (st4.events.map fun x => (x.component, ver ("./" ++ x.component)))
              ("./" ++ "jitsi-videobridge")
          rw [← q1]
        intro i e2 he2
        refine ⟨hgood5 i e2 he2, ?_, ?_⟩
        · have hmem := List.get?_mem he2
          rcases List.mem_append.mp hmem with h1 | h1
          · exact q3 e2 h1
          · have he3 : e2 = BuildEvent.mk "jitsi-videobridge"
                (update_maven_deps st4.versions ("./" ++ "jitsi-videobridge")) := by
              simpa using h1
            rw [he3]
            exact hk
        · intro x hx
          obtain ⟨hi, _⟩ := List.get?_eq_some.mp he2
          have hle : i ≤ st4.events.length := by
            simp only [List.length_append, List.length_singleton] at hi
            omega
          rw [takeAppendOfLe st4.events _ i hle] at hx
          exact q4 x (List.take_subset i _ hx)
    · have hbb : buildBlock mvn ver ov (Block.mk "jitsi-videobridge" false) st4 =
          Except.ok st4 := by
        unfold buildBlock
        simp [hk]
      have hbc : build_components mvn ver ov = Except.ok st4.events := by
        unfold build_components
        rw [hkey, runBlocks_append, hrun4]
        simp only [runBlocks, hbb]
      have hevs : evs = st4.events := by
        rcases h with h1 | h1 <;> rw [hbc] at h1
        · exact (by simpa using h1 : _ = evs).symm
        · simp at h1
      subst hevs
      intro i e2 he2
      exact ⟨q2 i e2 he2, q3 e2 (List.get?_mem he2),
        fun x hx => q4 x (List.take_subset i _ hx)⟩
  · have hbc : build_components mvn ver ov = Except.error (1, evs0 ++ [ev]) := by
      unfold build_components
      rw [hkey, runBlocks_append, hrun4]
    have hevs : evs = evs0 ++ [ev] := by
      rcases h with h1 | h1 <;> rw [hbc] at h1
      · simp at h1
      · exact (by simpa using h1 : _ = evs).symm
    subst hevs
    intro i e2 he2
    refine ⟨g i e2 he2, ?_, ?_⟩
    · exact o e2 (List.get?_mem he2)
    · intro x hx
      obtain ⟨hi, _⟩ := List.get?_eq_some.mp he2
      have hle : i ≤ evs0.length := by
        simp only [List.length_append, List.length_singleton] at hi
        omega
      rw [takeAppendOfLe evs0 _ i hle] at hx
      exact pre x (List.take_subset i _ hx)

theorem build_components_subst_prior_builds_witness :
    (BuildEvent.mk "jicoco"
        [SubstCmd.mk "jitsi-utils" "./jitsi-utils-v" "./jicoco"]).substitutions =
      update_maven_deps
        (([BuildEvent.mk "jitsi-utils" [],
           BuildEvent.mk "jicoco"
             [SubstCmd.mk "jitsi-utils" "./jitsi-utils-v" "./jicoco"]].take 1).map
          fun x => (x.component, (fun d => d ++ "-v") ("./" ++ x.component)))
        ("./" ++ (BuildEvent.mk "jicoco"
          [SubstCmd.mk "jitsi-utils" "./jitsi-utils-v" "./jicoco"]).component) ∧
    hasKey [("jitsi-utils", ("r1", "br1")), ("jicoco", ("r2", "br2"))]
      (BuildEvent.mk "jicoco"
        [SubstCmd.mk "jitsi-utils" "./jitsi-utils-v" "./jicoco"]).component = true ∧
    (∀ x ∈ [BuildEvent.mk "jitsi-utils" [],
        BuildEvent.mk "jicoco"
          [SubstCmd.mk "jitsi-utils" "./jitsi-utils-v" "./jicoco"]].take 1,
      (fun _ => (0 : Int)) ("./" ++ x.component) = 0) :=
  build_components_subst_prior_builds (fun _ => (0 : Int)) (fun d => d ++ "-v")
    [("jitsi-utils", ("r1", "br1")), ("jicoco", ("r2", "br2"))]
    [BuildEvent.mk "jitsi-utils" [],
     BuildEvent.mk "jicoco" [SubstCmd.mk "jitsi-utils" "./jitsi-utils-v" "./jicoco"]]
    (Or.inl (by rfl)) 1
    (BuildEvent.mk "jicoco" [SubstCmd.mk "jitsi-utils" "./jitsi-utils-v" "./jicoco"])
    (by rfl)

/-- C7 counterexample: for a PR comment event (action created), retrieve_pr_body
issues no HTTP request at all and exits the process with status 1, so the claim
that a PR comment event is handled and its comments are fetched is false; the
get_pr_comments helper exists in the source but is never invoked by main. -/
theorem retrieve_pr_body_comment_event_cex :
    retrieve_pr_body "tok" (fun _ => PrJson.mk "deps: use a b c")
      (GhEvent.mk "created" "u") =
      RetrieveOutcome.mk [LogMsg.unhandledAction "created"] [] (Except.error 1) := by
  rfl

/-- C7 amended: only the PR actions synchronize, opened and edited are handled:
for them the PR metadata is retrieved by a single HTTP request to the PR URL
carrying the bearer token, and the PR body is returned; for every other event
action, a PR comment event included, the program logs the unhandled action and
exits with status 1 without issuing any HTTP request, so PR comments are never
fetched. -/
theorem retrieve_pr_body_handled_actions (token : String) (fetch : String → PrJson)
    (event : GhEvent) :
    (event.action ∈ handledActions →
      retrieve_pr_body token fetch event =
        RetrieveOutcome.mk [LogMsg.retrievingPr]
          [HttpRequest.mk event.prUrl ("Bearer " ++ token)]
          (Except.ok (fetch event.prUrl).body)) ∧
    (event.action ∉ handledActions →
      retrieve_pr_body token fetch event =
        RetrieveOutcome.mk [LogMsg.unhandledAction event.action] [] (Except.error 1)) := by
  constructor
  · intro h
    unfold retrieve_pr_body load_pr
    rw [if_pos h]
  · intro h
    unfold retrieve_pr_body
    rw [if_neg h]

theorem retrieve_pr_body_handled_actions_witness :
    retrieve_pr_body "tok" (fun u => PrJson.mk (u ++ "-body")) (GhEvent.mk "opened" "u1") =
      RetrieveOutcome.mk [LogMsg.retrievingPr]
        [HttpRequest.mk "u1" ("Bearer " ++ "tok")]
        (Except.ok ("u1" ++ "-body")) ∧
    retrieve_pr_body "tok" (fun u => PrJson.mk (u ++ "-body")) (GhEvent.mk "created" "u1") =
      RetrieveOutcome.mk [LogMsg.unhandledAction "created"] [] (Except.error 1) :=
  ⟨(retrieve_pr_body_handled_actions "tok" (fun u => PrJson.mk (u ++ "-body"))
      (GhEvent.mk "opened" "u1")).1 (by decide),
   (retrieve_pr_body_handled_actions "tok" (fun u => PrJson.mk (u ++ "-body"))
      (GhEvent.mk "created" "u1")).2 (by decide)⟩

/-- C10: for every event whose action is not synchronize, opened or edited,
retrieve_pr_body logs the unhandled action and exits the process with status 1
without issuing any HTTP request. -/
theorem retrieve_pr_body_unhandled_exits (token : String) (fetch : String → PrJson)
    (event : GhEvent) (h : event.action ∉ handledActions) :
    retrieve_pr_body token fetch event =
      RetrieveOutcome.mk [LogMsg.unhandledAction event.action] [] (Except.error 1) := by
  unfold retrieve_pr_body
  rw [if_neg h]

theorem retrieve_pr_body_unhandled_exits_witness :
    ("closed" ∉ handledActions) ∧
    retrieve_pr_body "tok" (fun _ => PrJson.mk "") (GhEvent.mk "closed" "u") =
      RetrieveOutcome.mk [LogMsg.unhandledAction "closed"] [] (Except.error 1) :=
  ⟨by decide, retrieve_pr_body_unhandled_exits "tok" (fun _ => PrJson.mk "")
    (GhEvent.mk "closed" "u") (by decide)⟩
